import Mathlib

/-!
Shallow embedding of the whois-checker domain monitor.

`Value` models the Python values that appear in whois snapshots: `None`,
booleans, strings, integers, datetime objects (values with `strftime`) and
lists.  `Snapshot` and `ChangeSet` model the Python dicts as insertion-ordered
association lists; a Python dict has unique keys, which appears as a
`Nodup`-hypothesis where the behaviour depends on it.
-/

inductive Scalar : Type
  | snone : Scalar
  | sbool (b : Bool) : Scalar
  | sstr (s : String) : Scalar
  | sint (n : Int) : Scalar
  | sdate (y mo d h mi s : Nat) : Scalar
deriving DecidableEq, Repr

/-- A whois field value: a scalar or a list of scalars (the only list values
the program encounters are lists of strings or of datetimes). -/
inductive Value : Type
  | scalar (x : Scalar) : Value
  | vlist (xs : List Scalar) : Value
deriving DecidableEq, Repr

/-- Python `None` as an embedded value. -/
def Value.vnone : Value := .scalar .snone

def Value.vbool (b : Bool) : Value := .scalar (.sbool b)

def Value.vstr (s : String) : Value := .scalar (.sstr s)

def Value.vint (n : Int) : Value := .scalar (.sint n)

def Value.vdate (y mo d h mi s : Nat) : Value := .scalar (.sdate y mo d h mi s)

/-- Python `isinstance(x, str)` on a list element. -/
def isStr : Scalar → Bool
  | .sstr _ => true
  | _ => false

def pad2 (n : Nat) : String :=
  if n < 10 then "0" ++ toString n else toString n

def pad4 (n : Nat) : String :=
  if n < 10 then "000" ++ toString n
  else if n < 100 then "00" ++ toString n
  else if n < 1000 then "0" ++ toString n
  else toString n

/-- Lexicographic comparison of character lists by code point, the order
Python uses to compare strings. -/
def charListLe : List Char → List Char → Bool
  | [], _ => true
  | _ :: _, [] => false
  | a :: as, b :: bs =>
      if a < b then true
      else if b < a then false
      else charListLe as bs

/-- Python string `<=`: lexicographic by code point. -/
def strLeB (a b : String) : Bool := charListLe a.data b.data

/-- Python `str.lower()` (character-wise lower-casing). -/
def strToLower (s : String) : String := ⟨s.data.map Char.toLower⟩

/-- Python strftime on a datetime value with the fixed pattern
%Y-%m-%d %H:%M:%S used by the normalizer. -/
def strftimeYmdHMS (y mo d h mi s : Nat) : String :=
  pad4 y ++ "-" ++ pad2 mo ++ "-" ++ pad2 d ++ " " ++ pad2 h ++ ":" ++ pad2 mi ++ ":" ++ pad2 s

/-- Python `str(x)` on a scalar (`normalize_whois_value` handles lists
before falling through to `str`). -/
def pyStr : Scalar → String
  | .snone => "None"
  | .sbool true => "True"
  | .sbool false => "False"
  | .sstr s => s
  | .sint n => toString n
  | .sdate y mo d h mi s => strftimeYmdHMS y mo d h mi s

/-- Embeds `normalize_whois_value` (domain_monitor.py lines 59-75): `None` is kept;
a list whose elements are all strings becomes the sorted list of lower-cased
elements; any other list is returned unchanged; a value with `strftime`
(a datetime) is formatted; anything else becomes `str(value)`. -/
def normalize_whois_value : Value → Value
  | .scalar .snone => .scalar .snone
  | .vlist xs =>
      if xs.all isStr then
        .vlist ((List.insertionSort (fun a b => strLeB a b = true)
          (xs.map (fun x => strToLower (pyStr x)))).map Scalar.sstr)
      else .vlist xs
  | .scalar (.sdate y mo d h mi s) => .scalar (.sstr (strftimeYmdHMS y mo d h mi s))
  | .scalar x => .scalar (.sstr (pyStr x))

/-- A snapshot is a Python dict from field names to values, embedded as an
insertion-ordered association list. -/
abbrev Snapshot : Type := List (String × Value)

/-- An entry of a ChangeSet: either a real `{from: ..., to: ...}` diff pair
or a bare value (used by the `error` and first-run `message` entries). -/
inductive ChangeEntry : Type
  | diff (fromVal toVal : Value) : ChangeEntry
  | plain (v : Value) : ChangeEntry
deriving DecidableEq, Repr

abbrev ChangeSet : Type := List (String × ChangeEntry)

/-- Python dict lookup `d[k]` / `d.get(k)` on an association list (first
occurrence; with unique keys this is exactly dict lookup). -/
def lookupKey {α : Type} : List (String × α) → String → Option α
  | [], _ => none
  | (k, v) :: rest, key => if k = key then some v else lookupKey rest key

/-- Python `key in d`. -/
def containsKey {α : Type} (l : List (String × α)) (key : String) : Bool :=
  (lookupKey l key).isSome

/-- The fields ignored by change comparison (domain_monitor.py line 126). -/
def skipFields : List String := ["check_time", "raw_text"]

/-- The first-run sentinel message (domain_monitor.py line 123). -/
def firstRunMessage : Value := .vstr "Premier contr\xf4le, pas d\x27historique disponible"

/-- First loop of `detect_changes` (lines 128-141): for every key of
`current` outside the skip list, emit an appeared/changed diff against
`previous`. -/
def diffLoop1 (previous : Snapshot) : Snapshot → ChangeSet
  | [] => []
  | (k, v) :: rest =>
      if k ∈ skipFields then diffLoop1 previous rest
      else
        match lookupKey previous k with
        | none => (k, .diff .vnone v) :: diffLoop1 previous rest
        | some pv =>
            if pv = v then diffLoop1 previous rest
            else (k, .diff pv v) :: diffLoop1 previous rest

/-- Second loop of `detect_changes` (lines 144-152): for every key of
`previous` outside the skip list that is absent from `current`, emit a
disappeared diff. -/
def diffLoop2 (current : Snapshot) : Snapshot → ChangeSet
  | [] => []
  | (k, v) :: rest =>
      if k ∈ skipFields then diffLoop2 current rest
      else if containsKey current k then diffLoop2 current rest
      else (k, .diff v .vnone) :: diffLoop2 current rest

/-- Embeds `detect_changes` (domain_monitor.py lines 116-154).  `previous` is
`Option Snapshot` because the stored history may be absent; the Python
truthiness test `not previous_status` is true for both `None` and the empty
dict. -/
def detect_changes (previous : Option Snapshot) (current : Snapshot) : ChangeSet :=
  match lookupKey current "error" with
  | some e => [("error", .plain e)]
  | none =>
      match previous with
      | none => [("message", .plain firstRunMessage)]
      | some p =>
          if p.isEmpty then [("message", .plain firstRunMessage)]
          else diffLoop1 p current ++ diffLoop2 current p

/-- The notification guard in `main` (domain_monitor.py line 227):
`changes and len(changes) > 0 and not (len(changes) == 1 and "message" in changes)`. -/
def main_notification_guard (changes : ChangeSet) : Bool :=
  !changes.isEmpty && Nat.blt 0 changes.length &&
    !(Nat.beq changes.length 1 && containsKey changes "message")

/-- A configured notification service: its class name and its `send`
method, which may return a success boolean or raise (`Except.error`). -/
structure Service : Type where
  name : String
  send : String → String → ChangeSet → Snapshot → Except String Bool

/-- Collapse a `send` outcome the way the dispatcher records it: a raised
exception counts as failure. -/
def sendOutcome : Except String Bool → Bool
  | .ok b => b
  | .error _ => false

/-- Embeds `NotificationManager.send_notification` (notifications.py lines 35-51):
iterate the configured services in order, call `send` inside `try/except`,
and record `(class name, success)` for each, with an exception recorded as
`False`. -/
def send_notification (services : List Service) (subject message : String)
    (changes : ChangeSet) (current : Snapshot) : List (String × Bool) :=
  match services with
  | [] => []
  | s :: rest =>
      (match s.send subject message changes current with
       | .ok b => (s.name, b)
       | .error _ => (s.name, false)) ::
        send_notification rest subject message changes current

theorem lookupKey_append {α : Type} (a b : List (String × α)) (k : String) :
    lookupKey (a ++ b) k =
      match lookupKey a k with
      | some v => some v
      | none => lookupKey b k := by
  induction a with
  | nil => rfl
  | cons e rest ih =>
      obtain ⟨k₁, v₁⟩ := e
      by_cases h : k₁ = k
      · simp [lookupKey, h]
      · simp [lookupKey, h, ih]

theorem lookupKey_eq_none {α : Type} (l : List (String × α)) (k : String)
    (h : ∀ e ∈ l, e.1 ≠ k) : lookupKey l k = none := by
  induction l with
  | nil => rfl
  | cons e rest ih =>
      obtain ⟨k₁, v₁⟩ := e
      have hk₁ : k₁ ≠ k := h (k₁, v₁) (List.mem_cons_self _ _)
      simp only [lookupKey, if_neg hk₁]
      exact ih fun e he => h e (List.mem_cons_of_mem _ he)

theorem lookupKey_of_mem_nodup {α : Type} (l : List (String × α))
    (hnd : (l.map Prod.fst).Nodup) (e : String × α) (he : e ∈ l) :
    lookupKey l e.1 = some e.2 := by
  induction l with
  | nil => simp at he
  | cons hd rest ih =>
      obtain ⟨k₁, v₁⟩ := hd
      rcases List.mem_cons.mp he with h | h
      · subst h
        simp [lookupKey]
      · have hk₁ : k₁ ≠ e.1 := by
          intro hkk
          have : e.1 ∈ rest.map Prod.fst := List.mem_map_of_mem Prod.fst h
          rw [List.map_cons, List.nodup_cons] at hnd
          exact hnd.1 (hkk ▸ this)
        simp only [lookupKey, if_neg hk₁]
        exact ih (by rw [List.map_cons, List.nodup_cons] at hnd; exact hnd.2) h

theorem containsKey_of_mem {α : Type} (l : List (String × α)) (e : String × α)
    (he : e ∈ l) : containsKey l e.1 = true := by
  induction l with
  | nil => simp at he
  | cons hd rest ih =>
      obtain ⟨k₁, v₁⟩ := hd
      by_cases hk : k₁ = e.1
      · simp [containsKey, lookupKey, hk]
      · rcases List.mem_cons.mp he with h | h
        · exact absurd (congrArg Prod.fst h.symm) hk
        · simpa [containsKey, lookupKey, hk] using ih h

theorem keys_diffLoop1 (p : Snapshot) (c : Snapshot) :
    ∀ e ∈ diffLoop1 p c, e.1 ∈ c.map Prod.fst ∧ e.1 ∉ skipFields := by
  induction c with
  | nil => simp [diffLoop1]
  | cons hd tl ih =>
      obtain ⟨k, v⟩ := hd
      intro e he
      by_cases hsk : k ∈ skipFields
      · simp only [diffLoop1, if_pos hsk] at he
        have := ih e he
        exact ⟨List.mem_cons_of_mem _ this.1, this.2⟩
      · cases hl : lookupKey p k with
        | none =>
            simp only [diffLoop1, if_neg hsk, hl] at he
            rcases List.mem_cons.mp he with h | h
            · subst h
              exact ⟨List.mem_cons_self _ _, hsk⟩
            · have := ih e h
              exact ⟨List.mem_cons_of_mem _ this.1, this.2⟩
        | some pv =>
            simp only [diffLoop1, if_neg hsk, hl] at he
            by_cases hpv : pv = v
            · rw [if_pos hpv] at he
              have := ih e he
              exact ⟨List.mem_cons_of_mem _ this.1, this.2⟩
            · rw [if_neg hpv] at he
              rcases List.mem_cons.mp he with h | h
              · subst h
                exact ⟨List.mem_cons_self _ _, hsk⟩
              · have := ih e h
                exact ⟨List.mem_cons_of_mem _ this.1, this.2⟩

theorem keys_diffLoop2 (c : Snapshot) (p : Snapshot) :
    ∀ e ∈ diffLoop2 c p, e.1 ∉ skipFields ∧ containsKey c e.1 = false := by
  induction p with
  | nil => simp [diffLoop2]
  | cons hd tl ih =>
      obtain ⟨k, v⟩ := hd
      intro e he
      by_cases hsk : k ∈ skipFields
      · simp only [diffLoop2, if_pos hsk] at he
        exact ih e he
      · simp only [diffLoop2, if_neg hsk] at he
        cases hc : containsKey c k with
        | true =>
            rw [hc] at he
            simp only [if_pos rfl] at he
            exact ih e he
        | false =>
            rw [hc] at he
            simp only [Bool.false_eq_true, if_neg] at he
            rcases List.mem_cons.mp he with h | h
            · subst h
              exact ⟨hsk, hc⟩
            · exact ih e h

theorem lookupKey_diffLoop1_eq_none (p : Snapshot) (c : Snapshot) (k : String)
    (h : k ∉ c.map Prod.fst) : lookupKey (diffLoop1 p c) k = none :=
  lookupKey_eq_none _ _ fun e he hek => h (hek ▸ (keys_diffLoop1 p c e he).1)

theorem lookupKey_diffLoop1_skip (p : Snapshot) (c : Snapshot) (k : String)
    (h : k ∈ skipFields) : lookupKey (diffLoop1 p c) k = none :=
  lookupKey_eq_none _ _ fun e he hek => (keys_diffLoop1 p c e he).2 (hek ▸ h)

theorem lookupKey_diffLoop2_skip (c : Snapshot) (p : Snapshot) (k : String)
    (h : k ∈ skipFields) : lookupKey (diffLoop2 c p) k = none :=
  lookupKey_eq_none _ _ fun e he hek => (keys_diffLoop2 c p e he).1 (hek ▸ h)

theorem lookupKey_diffLoop1 (p : Snapshot) (k : String) (hk : k ∉ skipFields) :
    ∀ (c : Snapshot), (c.map Prod.fst).Nodup →
    lookupKey (diffLoop1 p c) k =
      match lookupKey c k with
      | none => none
      | some cv =>
          match lookupKey p k with
          | none => some (.diff .vnone cv)
          | some pv => if pv = cv then none else some (.diff pv cv) := by
  intro c
  induction c with
  | nil => intro _; rfl
  | cons hd tl ih =>
      obtain ⟨k₁, v₁⟩ := hd
      intro hnd
      rw [List.map_cons, List.nodup_cons] at hnd
      by_cases hkk : k₁ = k
      · subst hkk
        cases hl : lookupKey p k₁ with
        | none => simp [diffLoop1, hk, hl, lookupKey]
        | some pv =>
            by_cases hpv : pv = v₁
            · subst hpv
              simp [diffLoop1, hk, hl, lookupKey,
                lookupKey_diffLoop1_eq_none p tl k₁ hnd.1]
            · simp [diffLoop1, hk, hl, lookupKey, hpv]
      · by_cases hsk : k₁ ∈ skipFields
        · simp only [diffLoop1, if_pos hsk, lookupKey, if_neg hkk]
          exact ih hnd.2
        · cases hl : lookupKey p k₁ with
          | none =>
              simp only [diffLoop1, if_neg hsk, hl, lookupKey, if_neg hkk]
              exact ih hnd.2
          | some pv =>
              by_cases hpv : pv = v₁
              · simp only [diffLoop1, if_neg hsk, hl, if_pos hpv, lookupKey, if_neg hkk]
                exact ih hnd.2
              · simp only [diffLoop1, if_neg hsk, hl, if_neg hpv, lookupKey, if_neg hkk]
                exact ih hnd.2

theorem lookupKey_diffLoop2 (c : Snapshot) (k : String) (hk : k ∉ skipFields) :
    ∀ (p : Snapshot),
    lookupKey (diffLoop2 c p) k =
      if containsKey c k then none
      else
        match lookupKey p k with
        | none => none
        | some pv => some (.diff pv .vnone) := by
  intro p
  induction p with
  | nil =>
      cases hc : containsKey c k <;> simp [diffLoop2, lookupKey, hc]
  | cons hd tl ih =>
      obtain ⟨k₁, v₁⟩ := hd
      by_cases hkk : k₁ = k
      · subst hkk
        cases hc : containsKey c k₁ with
        | true => simp [diffLoop2, hk, hc, ih, lookupKey]
        | false => simp [diffLoop2, hk, hc, lookupKey]
      · by_cases hsk : k₁ ∈ skipFields
        · simp only [diffLoop2, if_pos hsk, ih, lookupKey, if_neg hkk]
        · cases hc : containsKey c k₁ with
          | true =>
              simp only [diffLoop2, if_neg hsk, hc, if_true, lookupKey, if_neg hkk]
              exact ih
          | false =>
              simp only [diffLoop2, if_neg hsk, hc, Bool.false_eq_true, if_false, lookupKey,
                if_neg hkk]
              exact ih

theorem detect_changes_eq_loops (p : Snapshot) (c : Snapshot)
    (he : lookupKey c "error" = none) (hp : p ≠ []) :
    detect_changes (some p) c = diffLoop1 p c ++ diffLoop2 c p := by
  unfold detect_changes
  rw [he]
  cases p with
  | nil => exact absurd rfl hp
  | cons hd tl => rfl

theorem diffLoop1_self_eq_nil (p : Snapshot) :
    ∀ (c : Snapshot), (∀ e ∈ c, lookupKey p e.1 = some e.2) → diffLoop1 p c = [] := by
  intro c
  induction c with
  | nil => intro _; rfl
  | cons hd tl ih =>
      obtain ⟨k, v⟩ := hd
      intro h
      have hhd : lookupKey p k = some v := h (k, v) (List.mem_cons_self _ _)
      have htl : ∀ e ∈ tl, lookupKey p e.1 = some e.2 :=
        fun e he => h e (List.mem_cons_of_mem _ he)
      by_cases hsk : k ∈ skipFields
      · simp only [diffLoop1, if_pos hsk]
        exact ih htl
      · simp only [diffLoop1, if_neg hsk, hhd, if_pos rfl]
        exact ih htl

theorem diffLoop2_self_eq_nil (c : Snapshot) :
    ∀ (p : Snapshot), (∀ e ∈ p, containsKey c e.1 = true) → diffLoop2 c p = [] := by
  intro p
  induction p with
  | nil => intro _; rfl
  | cons hd tl ih =>
      obtain ⟨k, v⟩ := hd
      intro h
      have hhd : containsKey c k = true := h (k, v) (List.mem_cons_self _ _)
      have htl : ∀ e ∈ tl, containsKey c e.1 = true :=
        fun e he => h e (List.mem_cons_of_mem _ he)
      by_cases hsk : k ∈ skipFields
      · simp only [diffLoop2, if_pos hsk]
        exact ih htl
      · simp only [diffLoop2, if_neg hsk, hhd, if_pos rfl]
        exact ih htl

theorem charListLe_total : ∀ as bs : List Char, charListLe as bs = true ∨ charListLe bs as = true
  | [], _ => Or.inl rfl
  | _ :: _, [] => Or.inr rfl
  | a :: as, b :: bs => by
      by_cases hab : a < b
      · left
        simp [charListLe, hab]
      · by_cases hba : b < a
        · right
          simp [charListLe, hba]
        · rcases charListLe_total as bs with h | h
          · left
            simp [charListLe, hab, hba, h]
          · right
            simp [charListLe, hab, hba, h]

theorem charListLe_trans : ∀ as bs cs : List Char,
    charListLe as bs = true → charListLe bs cs = true → charListLe as cs = true
  | [], _, _, _, _ => rfl
  | _ :: _, [], _, h1, _ => by simp [charListLe] at h1
  | _ :: _, _ :: _, [], _, h2 => by simp [charListLe] at h2
  | a :: as, b :: bs, c :: cs, h1, h2 => by
      by_cases hab : a < b
      · by_cases hbc : b < c
        · simp [charListLe, lt_trans hab hbc]
        · by_cases hcb : c < b
          · simp [charListLe, hbc, hcb] at h2
          · have hbc' : b = c := le_antisymm (not_lt.mp hcb) (not_lt.mp hbc)
            subst hbc'
            simp [charListLe, hab]
      · by_cases hba : b < a
        · simp [charListLe, hab, hba] at h1
        · have hab' : a = b := le_antisymm (not_lt.mp hba) (not_lt.mp hab)
          subst hab'
          by_cases hac : a < c
          · simp [charListLe, hac]
          · by_cases hca : c < a
            · simp [charListLe, hac, hca] at h2
            · simp only [charListLe, if_neg hab, if_neg hba] at h1
              simp only [charListLe, if_neg hac, if_neg hca] at h2 ⊢
              exact charListLe_trans as bs cs h1 h2

theorem charListLe_antisymm : ∀ as bs : List Char,
    charListLe as bs = true → charListLe bs as = true → as = bs
  | [], [], _, _ => rfl
  | [], _ :: _, _, h2 => by simp [charListLe] at h2
  | _ :: _, [], h1, _ => by simp [charListLe] at h1
  | a :: as, b :: bs, h1, h2 => by
      by_cases hab : a < b
      · simp [charListLe, hab, lt_asymm hab] at h2
      · by_cases hba : b < a
        · simp [charListLe, hab, hba] at h1
        · have hab' : a = b := le_antisymm (not_lt.mp hba) (not_lt.mp hab)
          subst hab'
          simp only [charListLe, if_neg hab, if_neg hba] at h1 h2
          rw [charListLe_antisymm as bs h1 h2]

instance : IsTotal String (fun a b => strLeB a b = true) :=
  ⟨fun a b => charListLe_total a.data b.data⟩

instance : IsTrans String (fun a b => strLeB a b = true) :=
  ⟨fun a b c => charListLe_trans a.data b.data c.data⟩

instance : IsAntisymm String (fun a b => strLeB a b = true) :=
  ⟨fun a b h1 h2 => congrArg String.mk (charListLe_antisymm a.data b.data h1 h2)⟩

theorem insertionSort_strLe_eq_of_perm {l₁ l₂ : List String} (h : l₁.Perm l₂) :
    List.insertionSort (fun a b => strLeB a b = true) l₁
      = List.insertionSort (fun a b => strLeB a b = true) l₂ :=
  List.eq_of_perm_of_sorted
    ((List.perm_insertionSort _ _).trans (h.trans (List.perm_insertionSort _ _).symm))
    (List.sorted_insertionSort _ _) (List.sorted_insertionSort _ _)

theorem lookupKey_singleton_ne {α : Type} (k₁ k : String) (v : α) (h : k₁ ≠ k) :
    lookupKey [(k₁, v)] k = none := by
  simp [lookupKey, h]

theorem lookupKey_detect_eq_none_of_eq (P C : Snapshot) (k : String) (v : Value)
    (herr : lookupKey C "error" = none) (hPne : P ≠ []) (hnd : (C.map Prod.fst).Nodup)
    (hP : lookupKey P k = some v) (hC : lookupKey C k = some v) :
    lookupKey (detect_changes (some P) C) k = none := by
  rw [detect_changes_eq_loops P C herr hPne, lookupKey_append]
  by_cases hsk : k ∈ skipFields
  · rw [lookupKey_diffLoop1_skip P C k hsk, lookupKey_diffLoop2_skip C P k hsk]
  · rw [lookupKey_diffLoop1 P k hsk C hnd, lookupKey_diffLoop2 C k hsk P]
    simp [containsKey, hC, hP]

/-- C1: the orchestrator is claimed to dispatch a notification iff the
ChangeSet is non-empty and not the single-entry first-run `message` sentinel,
with the single-entry error ChangeSet also suppressed.  Evaluating the code at
a failed-lookup cycle shows the opposite: the `{error: ...}` ChangeSet that
`detect_changes` produces passes the guard in `main`, so the code proceeds to
notify instead of suppressing. -/
theorem error_changeset_passes_main_guard :
    detect_changes (some [("registered", Value.vbool true)])
        [("error", Value.vstr "whois lookup failed"), ("check_time", Value.vstr "t")]
      = [("error", ChangeEntry.plain (Value.vstr "whois lookup failed"))] ∧
    main_notification_guard [("error", ChangeEntry.plain (Value.vstr "whois lookup failed"))]
      = true :=
  ⟨by decide, by decide⟩

/-- C2 counterexample: with an absent previous snapshot but a current snapshot
containing an `error` field, `detect_changes` returns the single-entry error
mapping, not the first-run `message` sentinel — the error check runs first, so
the sentinel is not returned "regardless of S". -/
theorem detect_absent_error_cex :
    detect_changes none [("error", Value.vstr "boom"), ("check_time", Value.vstr "t")]
        = [("error", ChangeEntry.plain (Value.vstr "boom"))] ∧
    detect_changes none [("error", Value.vstr "boom"), ("check_time", Value.vstr "t")]
        ≠ [("message", ChangeEntry.plain firstRunMessage)] :=
  ⟨by decide, by decide⟩

/-- C2 (amended): for every current snapshot `S` without an `error` field,
`detect_changes` with an absent previous snapshot returns exactly the
single-entry first-run `message` sentinel, regardless of the other contents
of `S`. -/
theorem detect_absent_first_run (S : Snapshot) (h : lookupKey S "error" = none) :
    detect_changes none S = [("message", ChangeEntry.plain firstRunMessage)] := by
  unfold detect_changes
  rw [h]

theorem detect_absent_first_run_witness :
    lookupKey [("registered", Value.vbool true)] "error" = none ∧
    detect_changes none [("registered", Value.vbool true)]
      = [("message", ChangeEntry.plain firstRunMessage)] :=
  ⟨by decide, detect_absent_first_run _ (by decide)⟩

/-- C3: whenever the current snapshot contains an `error` field,
`detect_changes` returns exactly the single-entry mapping with that error
value, independently of every other field of both snapshots. -/
theorem detect_error_short_circuit (P C : Snapshot) (e : Value)
    (h : lookupKey C "error" = some e) :
    detect_changes (some P) C = [("error", ChangeEntry.plain e)] := by
  unfold detect_changes
  rw [h]

theorem detect_error_short_circuit_witness :
    lookupKey [("error", Value.vstr "timed out"), ("check_time", Value.vstr "t"),
        ("registered", Value.vbool true)] "error" = some (Value.vstr "timed out") ∧
    detect_changes (some [("registered", Value.vbool false)])
        [("error", Value.vstr "timed out"), ("check_time", Value.vstr "t"),
          ("registered", Value.vbool true)]
      = [("error", ChangeEntry.plain (Value.vstr "timed out"))] :=
  ⟨by decide, detect_error_short_circuit _ _ _ (by decide)⟩

/-- C4: diffing a valid snapshot against an identical copy of itself (no
`error` field, non-empty, unique keys — the invariants of every snapshot the
program builds) yields an empty ChangeSet. -/
theorem detect_self_empty (S : Snapshot) (herr : lookupKey S "error" = none)
    (hne : S ≠ []) (hnd : (S.map Prod.fst).Nodup) :
    detect_changes (some S) S = [] := by
  rw [detect_changes_eq_loops S S herr hne,
    diffLoop1_self_eq_nil S S (fun e he => lookupKey_of_mem_nodup S hnd e he),
    diffLoop2_self_eq_nil S S (fun e he => containsKey_of_mem S e he)]
  rfl

theorem detect_self_empty_witness :
    lookupKey [("registered", Value.vbool true), ("domain_name", Value.vstr "example.com"),
        ("check_time", Value.vstr "t")] "error" = none ∧
    detect_changes
        (some [("registered", Value.vbool true), ("domain_name", Value.vstr "example.com"),
          ("check_time", Value.vstr "t")])
        [("registered", Value.vbool true), ("domain_name", Value.vstr "example.com"),
          ("check_time", Value.vstr "t")]
      = [] :=
  ⟨by decide, detect_self_empty _ (by decide) (by decide) (by decide)⟩

/-- C5: in the ordinary comparison case (no error, previous present and
non-empty) the ChangeSet at a non-skip field `k` is exactly: appeared
(`from: None`), disappeared (`to: None`), changed (`from/to` both present), or
absent when both sides hold the same value. -/
theorem detect_field_semantics (P C : Snapshot) (k : String)
    (herr : lookupKey C "error" = none) (hPne : P ≠ [])
    (hk1 : k ≠ "check_time") (hk2 : k ≠ "raw_text")
    (hnd : (C.map Prod.fst).Nodup) :
    lookupKey (detect_changes (some P) C) k =
      match lookupKey P k, lookupKey C k with
      | none, none => none
      | none, some cv => some (ChangeEntry.diff Value.vnone cv)
      | some pv, none => some (ChangeEntry.diff pv Value.vnone)
      | some pv, some cv => if pv = cv then none else some (ChangeEntry.diff pv cv) := by
  have hsk : k ∉ skipFields := by simp [skipFields, hk1, hk2]
  rw [detect_changes_eq_loops P C herr hPne, lookupKey_append,
    lookupKey_diffLoop1 P k hsk C hnd, lookupKey_diffLoop2 C k hsk P]
  cases hC : lookupKey C k with
  | none => cases hP : lookupKey P k <;> simp [containsKey, hC, hP]
  | some cv =>
      cases hP : lookupKey P k with
      | none => simp [containsKey, hC, hP]
      | some pv =>
          by_cases hpv : pv = cv <;> simp [containsKey, hC, hP, hpv]

theorem detect_field_semantics_witness :
    lookupKey
        (detect_changes
          (some [("registered", Value.vbool true), ("registrar", Value.vstr "Old Registrar Inc.")])
          [("registered", Value.vbool true), ("registrar", Value.vstr "New Registrar LLC")])
        "registrar"
      = some (ChangeEntry.diff (Value.vstr "Old Registrar Inc.")
          (Value.vstr "New Registrar LLC")) :=
  (detect_field_semantics
      [("registered", Value.vbool true), ("registrar", Value.vstr "Old Registrar Inc.")]
      [("registered", Value.vbool true), ("registrar", Value.vstr "New Registrar LLC")]
      "registrar" (by decide) (by decide) (by decide) (by decide) (by decide)).trans
    (by decide)

/-- C6 counterexample: lists that are set-equal but not multiset-equal
normalize differently, so a set-equal list field does appear in a subsequent
ChangeSet: `[ns1.a.com, ns1.a.com]` and `[ns1.a.com]` have the same element
sets, yet the field shows up in the diff. -/
theorem set_equal_lists_can_diff_cex :
    (∀ v ∈ [Scalar.sstr "ns1.a.com", Scalar.sstr "ns1.a.com"], v ∈ [Scalar.sstr "ns1.a.com"]) ∧
    (∀ v ∈ [Scalar.sstr "ns1.a.com"], v ∈ [Scalar.sstr "ns1.a.com", Scalar.sstr "ns1.a.com"]) ∧
    lookupKey
        (detect_changes
          (some [("registered", Value.vbool true),
            ("name_servers", normalize_whois_value (.vlist [.sstr "ns1.a.com"]))])
          [("registered", Value.vbool true),
            ("name_servers",
              normalize_whois_value (.vlist [.sstr "ns1.a.com", .sstr "ns1.a.com"]))])
        "name_servers"
      ≠ none :=
  ⟨by decide, by decide, by decide⟩

/-- C6 (amended): normalization of an all-string list sorts the lower-cased
copy, so two raw list values that agree up to reordering and casing — i.e.
whose lower-cased element lists are permutations of each other, duplicates
counted — normalize to identical values, and such a field never appears in a
subsequent ChangeSet.  Set-equality alone (differing multiplicities) is not
sufficient. -/
theorem normalize_perm_case_invariant (xs ys : List Scalar) (k : String) (P C : Snapshot)
    (hx : xs.all isStr = true) (hy : ys.all isStr = true)
    (hperm : (xs.map fun x => strToLower (pyStr x)).Perm
      (ys.map fun x => strToLower (pyStr x)))
    (hP : lookupKey P k = some (normalize_whois_value (.vlist xs)))
    (hC : lookupKey C k = some (normalize_whois_value (.vlist ys)))
    (herr : lookupKey C "error" = none) (hPne : P ≠ [])
    (hnd : (C.map Prod.fst).Nodup) :
    normalize_whois_value (.vlist xs) = normalize_whois_value (.vlist ys) ∧
    lookupKey (detect_changes (some P) C) k = none := by
  have heq : normalize_whois_value (.vlist xs) = normalize_whois_value (.vlist ys) := by
    have hsort := insertionSort_strLe_eq_of_perm hperm
    simp [normalize_whois_value, hx, hy, hsort]
  exact ⟨heq,
    lookupKey_detect_eq_none_of_eq P C k (normalize_whois_value (.vlist xs))
      herr hPne hnd hP (heq.symm ▸ hC)⟩

theorem normalize_perm_case_invariant_witness :
    normalize_whois_value (.vlist [.sstr "NS1.A.COM", .sstr "ns2.b.com"])
        = normalize_whois_value (.vlist [.sstr "ns2.B.COM", .sstr "ns1.a.com"]) ∧
    lookupKey
        (detect_changes
          (some [("registered", Value.vbool true),
            ("name_servers",
              normalize_whois_value (.vlist [.sstr "NS1.A.COM", .sstr "ns2.b.com"]))])
          [("registered", Value.vbool true),
            ("name_servers",
              normalize_whois_value (.vlist [.sstr "ns2.B.COM", .sstr "ns1.a.com"]))])
        "name_servers"
      = none :=
  normalize_perm_case_invariant
    [.sstr "NS1.A.COM", .sstr "ns2.b.com"] [.sstr "ns2.B.COM", .sstr "ns1.a.com"]
    "name_servers"
    [("registered", Value.vbool true),
      ("name_servers", normalize_whois_value (.vlist [.sstr "NS1.A.COM", .sstr "ns2.b.com"]))]
    [("registered", Value.vbool true),
      ("name_servers", normalize_whois_value (.vlist [.sstr "ns2.B.COM", .sstr "ns1.a.com"]))]
    (by decide) (by decide) (by decide) (by decide) (by decide) (by decide) (by decide)
    (by decide)

/-- C7: dispatching over the configured channels returns exactly one
`(channel name, success)` pair per channel in configuration order, where a
`send` that raises or returns false is recorded as failure; each entry depends
only on the outcome of its own channel, so a failure of one channel never
prevents or alters the result of another. -/
theorem send_all_channels (services : List Service) (subject body : String)
    (changes : ChangeSet) (current : Snapshot) :
    send_notification services subject body changes current
        = services.map (fun s => (s.name, sendOutcome (s.send subject body changes current))) ∧
    (send_notification services subject body changes current).length = services.length := by
  have hmap : send_notification services subject body changes current
      = services.map (fun s => (s.name, sendOutcome (s.send subject body changes current))) := by
    induction services with
    | nil => rfl
    | cons s rest ih =>
        cases h : s.send subject body changes current <;>
          simp [send_notification, sendOutcome, h, ih]
  exact ⟨hmap, by rw [hmap, List.length_map]⟩

/-- C8: for every previous snapshot (present or absent) and every current
snapshot, the ChangeSet returned by `detect_changes` never contains the
`check_time` or `raw_text` keys. -/
theorem detect_excludes_audit_fields (prev : Option Snapshot) (C : Snapshot) :
    lookupKey (detect_changes prev C) "check_time" = none ∧
    lookupKey (detect_changes prev C) "raw_text" = none := by
  cases he : lookupKey C "error" with
  | some e =>
      simp only [detect_changes, he]
      exact ⟨lookupKey_singleton_ne _ _ _ (by decide),
        lookupKey_singleton_ne _ _ _ (by decide)⟩
  | none =>
      cases prev with
      | none =>
          simp only [detect_changes, he]
          exact ⟨lookupKey_singleton_ne _ _ _ (by decide),
            lookupKey_singleton_ne _ _ _ (by decide)⟩
      | some p =>
          cases hp : p.isEmpty with
          | true =>
              simp only [detect_changes, he, hp, if_true]
              exact ⟨lookupKey_singleton_ne _ _ _ (by decide),
                lookupKey_singleton_ne _ _ _ (by decide)⟩
          | false =>
              simp only [detect_changes, he, hp, Bool.false_eq_true, if_false]
              constructor <;>
                rw [lookupKey_append, lookupKey_diffLoop1_skip _ _ _ (by decide),
                  lookupKey_diffLoop2_skip _ _ _ (by decide)]

/-- C9: a list containing at least one non-string element is returned from
`normalize_whois_value` unchanged — neither sorted, nor case-folded, nor are
its elements stringified or date-formatted. -/
theorem normalize_keeps_nonstring_list (xs : List Scalar)
    (h : ∃ x ∈ xs, isStr x = false) :
    normalize_whois_value (.vlist xs) = .vlist xs := by
  have hall : xs.all isStr = false := by
    rcases h with ⟨x, hx, hfx⟩
    cases hres : xs.all isStr with
    | false => rfl
    | true => exact absurd (List.all_eq_true.mp hres x hx) (by simp [hfx])
  simp [normalize_whois_value, hall]

theorem normalize_keeps_nonstring_list_witness :
    (∃ x ∈ [Scalar.sdate 2023 1 1 0 0 0, Scalar.sdate 2024 1 1 0 0 0],
        isStr x = false) ∧
    normalize_whois_value (.vlist [.sdate 2023 1 1 0 0 0, .sdate 2024 1 1 0 0 0])
      = .vlist [.sdate 2023 1 1 0 0 0, .sdate 2024 1 1 0 0 0] :=
  ⟨by decide, normalize_keeps_nonstring_list _ (by decide)⟩

/-- C10: an empty-but-present previous snapshot is treated exactly like an
absent one: for every non-error current snapshot the result is the
single-entry first-run `message` sentinel, the same ChangeSet the absent case
produces, not a field-by-field `{from: None, to: ...}` diff. -/
theorem detect_empty_previous_first_run (C : Snapshot) (h : lookupKey C "error" = none) :
    detect_changes (some []) C = [("message", ChangeEntry.plain firstRunMessage)] ∧
    detect_changes (some []) C = detect_changes none C := by
  unfold detect_changes
  rw [h]
  exact ⟨rfl, rfl⟩

theorem detect_empty_previous_first_run_witness :
    lookupKey [("registered", Value.vbool true)] "error" = none ∧
    (detect_changes (some []) [("registered", Value.vbool true)]
        = [("message", ChangeEntry.plain firstRunMessage)] ∧
      detect_changes (some []) [("registered", Value.vbool true)]
        = detect_changes none [("registered", Value.vbool true)]) :=
  ⟨by decide, detect_empty_previous_first_run _ (by decide)⟩
